import Mathlib

/-!
Shallow embedding of the statistics core of the `jang` package
(`jang/stats/likelihoods.py`, `jang/stats/priors.py`,
`jang/stats/posteriors.py` and the grid construction of `jang/limits.py`).

Conventions of the embedding:
* numpy arrays over a grid become `List ℝ`, with vectorized numpy
  expressions embedded pointwise via `List.map`;
* a log-likelihood value is `Option ℝ`: `some x` is a finite value and
  `none` models the IEEE `-inf` that the code produces for excluded
  regions (so that the linear-scale likelihood there is `0`);
* `scipy.special.gammaln` is the logarithm of the Gamma function;
* a fatal `RuntimeError` raised by the Python code becomes the `error`
  branch of `Except String`.
-/

namespace Jang

noncomputable section

/-- Addition of log-likelihood values: `-inf` (here `none`) absorbs, as it
does for the IEEE addition performed by `loglkl +=` in the code. -/
def oadd (a b : Option ℝ) : Option ℝ :=
  match a, b with
  | some x, some y => some (x + y)
  | _, _ => none

/-- `np.exp` on a log-likelihood value: `exp (-inf) = 0`. -/
def expOpt (a : Option ℝ) : ℝ :=
  match a with
  | some x => Real.exp x
  | none => 0

/-- `scipy.special.gammaln`: logarithm of the Gamma function. -/
def gammaln (x : ℝ) : ℝ := Real.log (Real.Gamma x)

/-- `logpoisson_one_sample` from `jang/stats/likelihoods.py`, at one grid
point `v`: log of `Poisson(nobserved, nbackground + conv * v)`, with the
region `nexpected ≤ 0` mapped to `-inf` (here `none`). -/
def logpoisson_one_sample (nobserved : ℕ) (nbackground conv : ℝ) (v : ℝ) : Option ℝ :=
  let nexpected := conv * v + nbackground
  if 0 < nexpected then
    some (-nexpected + nobserved * Real.log nexpected - gammaln (nobserved + 1))
  else none

/-- The multi-sample log-likelihood accumulated by the loop of
`poisson_several_samples`, at one grid point: starting from the `0` of
`np.zeros_like`, add the one-sample log-likelihood of each
`(n_obs, n_bkg, cv)` triple delivered by `zip`. -/
def logpoisson_several_point (nobserved : List ℕ) (nbackground conv : List ℝ) (v : ℝ) :
    Option ℝ :=
  (nobserved.zip (nbackground.zip conv)).foldl
    (fun acc s => oadd acc (logpoisson_one_sample s.1 s.2.1 s.2.2 v)) (some 0)

/-- `poisson_several_samples` from `jang/stats/likelihoods.py`: sum the
per-sample log-likelihoods over the grid, then `np.exp`. -/
def poisson_several_samples (nobserved : List ℕ) (nbackground conv : List ℝ)
    (var : List ℝ) : List ℝ :=
  var.map (fun v => expOpt (logpoisson_several_point nobserved nbackground conv v))

/-- `flat` from `jang/stats/priors.py`: `np.ones_like(var)`. -/
def flat (var : List ℝ) : List ℝ :=
  var.map (fun _ => 1)

/-- `invsqrt` from `jang/stats/priors.py`: `1/np.sqrt(var)`. -/
def invsqrt (var : List ℝ) : List ℝ :=
  var.map (fun v => 1 / Real.sqrt v)

/-- The value of `jeffrey_poisson` at one grid point `v`: square root of
the sum, over the sample indices `i` of `range(len(bkg))`, of
`conv[i]**2 / (conv[i]*v + bkg[i])` when `conv[i] > 0` and `0` otherwise. -/
def jeffrey_point (bkg conv : List ℝ) (v : ℝ) : ℝ :=
  Real.sqrt
    (((List.range bkg.length).map (fun i =>
      if 0 < conv.getD i 0 then
        conv.getD i 0 ^ 2 / (conv.getD i 0 * v + bkg.getD i 0)
      else 0)).sum)

/-- `jeffrey_poisson` from `jang/stats/priors.py`, vectorized over the grid. -/
def jeffrey_poisson (var bkg conv : List ℝ) : List ℝ :=
  var.map (jeffrey_point bkg conv)

/-- `signal_parameter` from `jang/stats/priors.py`: dispatch on the prior
name, raising (`Except.error`) on an unknown name. -/
def signal_parameter (var bkg conv : List ℝ) (prior_type : String) :
    Except String (List ℝ) :=
  if prior_type = "flat" then .ok (flat var)
  else if prior_type = "jeffrey" then .ok (jeffrey_poisson var bkg conv)
  else if prior_type = "invsqrt" then .ok (invsqrt var)
  else .error ("Unknown prior type " ++ prior_type)

/-- A reconstructed event; its internal structure is irrelevant to the
properties proved here, the per-event pseudo-densities below consume it. -/
def Event := ℝ

/-- The optional per-event pseudo-densities `sample.pdfs[n][k]` of a sample,
for the signal and background hypotheses. The angular signal density takes
the source direction; the time signal density takes the optional
`(t0, sigma_t)` pair when the caller supplies both temporal variables. -/
structure Pdfs where
  ang_signal : Option (Event → ℝ → ℝ → ℝ)
  ene_signal : Option (Event → ℝ)
  time_signal : Option (Event → Option (ℝ × ℝ) → ℝ)
  ang_background : Option (Event → ℝ)
  ene_background : Option (Event → ℝ)
  time_background : Option (Event → ℝ)

/-- A detection sample as used by the point-source likelihood: an optional
event list and the per-event densities. -/
structure Sample where
  events : Option (List Event)
  pdfs : Pdfs

/-- `logpointsource_one_sample` from `jang/stats/likelihoods.py` at one grid
point. When the sample has no event list it falls back to
`logpoisson_one_sample`; otherwise it starts from
`-nexpected - gammaln(nobserved+1)` (with `nexpected ≤ 0` mapped to `-inf`)
and, for each event, accumulates the log of the signal plus background
per-event densities, each hypothesis weighted by its expected count and
multiplied by whichever of its angular/energy/time factors are present.
`other_var` is `some (t0, sigma_t)` when the caller passes both temporal
variables. An event whose combined density is not positive yields an
invalid logarithm, modelled as `none`. -/
def logpointsource_one_sample (sample : Sample) (nobserved : ℕ)
    (nbackground conv ra_src dec_src : ℝ) (v : ℝ) (other_var : Option (ℝ × ℝ)) :
    Option ℝ :=
  match sample.events with
  | none => logpoisson_one_sample nobserved nbackground conv v
  | some events =>
    let nsignal := conv * v
    let nexpected := nbackground + nsignal
    let start : Option ℝ :=
      if 0 < nexpected then some (-nexpected - gammaln (nobserved + 1)) else none
    events.foldl (fun acc evt =>
      let lsig0 := nsignal
      let lsig1 := match sample.pdfs.ang_signal with
        | some f => lsig0 * f evt ra_src dec_src
        | none => lsig0
      let lsig2 := match sample.pdfs.ene_signal with
        | some f => lsig1 * f evt
        | none => lsig1
      let lsig3 := match sample.pdfs.time_signal with
        | some f => lsig2 * f evt other_var
        | none => lsig2
      let lbkg0 := nbackground
      let lbkg1 := match sample.pdfs.ang_background with
        | some f => lbkg0 * f evt
        | none => lbkg0
      let lbkg2 := match sample.pdfs.ene_background with
        | some f => lbkg1 * f evt
        | none => lbkg1
      let lbkg3 := match sample.pdfs.time_background with
        | some f => lbkg2 * f evt
        | none => lbkg2
      let l := lsig3 + lbkg3
      oadd acc (if 0 < l then some (Real.log l) else none)) start

/-- The per-toy detector outcome `toy[1]` used by the posterior loops:
observed counts and expected backgrounds, one entry per sample. -/
structure ToyResult where
  nobserved : List ℕ
  nbackground : List ℝ

/-- Pointwise `+=` of two grid-shaped arrays. -/
def listAdd (a b : List ℝ) : List ℝ :=
  List.zipWith (· + ·) a b

/-- Pointwise `*` of two grid-shaped arrays. -/
def listMul (a b : List ℝ) : List ℝ :=
  List.zipWith (· * ·) a b

/-- The aggregation loop of `compute_flux_posterior` from
`jang/stats/posteriors.py`: starting from `np.zeros_like(x_arr)`, for each
toy add the multi-sample Poisson likelihood (with the toy's conversion
factors `phi_to_nsig`) multiplied by the prior weights from
`signal_parameter`. The toy ensemble and the conversion map built by the
`Analysis` object are taken as inputs; an unknown prior name propagates the
raised error. -/
def compute_flux_posterior (toys : List ToyResult) (phi_to_nsig : ToyResult → List ℝ)
    (x_arr : List ℝ) (prior_signal : String) : Except String (List ℝ) :=
  toys.foldlM
    (fun post_arr toy => do
      let conv := phi_to_nsig toy
      let p ← signal_parameter x_arr toy.nbackground conv prior_signal
      pure (listAdd post_arr
        (listMul (poisson_several_samples toy.nobserved toy.nbackground conv x_arr) p)))
    (List.replicate x_arr.length 0)

/-- The aggregation loop of `compute_etot_posterior`, identical to the flux
one with the `etot_to_nsig` conversion map. -/
def compute_etot_posterior (toys : List ToyResult) (etot_to_nsig : ToyResult → List ℝ)
    (x_arr : List ℝ) (prior_signal : String) : Except String (List ℝ) :=
  toys.foldlM
    (fun post_arr toy => do
      let conv := etot_to_nsig toy
      let p ← signal_parameter x_arr toy.nbackground conv prior_signal
      pure (listAdd post_arr
        (listMul (poisson_several_samples toy.nobserved toy.nbackground conv x_arr) p)))
    (List.replicate x_arr.length 0)

/-- The aggregation loop of `compute_fnu_posterior`, identical to the flux
one with the `fnu_to_nsig` conversion map. -/
def compute_fnu_posterior (toys : List ToyResult) (fnu_to_nsig : ToyResult → List ℝ)
    (x_arr : List ℝ) (prior_signal : String) : Except String (List ℝ) :=
  toys.foldlM
    (fun post_arr toy => do
      let conv := fnu_to_nsig toy
      let p ← signal_parameter x_arr toy.nbackground conv prior_signal
      pure (listAdd post_arr
        (listMul (poisson_several_samples toy.nobserved toy.nbackground conv x_arr) p)))
    (List.replicate x_arr.length 0)

/-- The grid ranges of the `Parameters` object: each is the configured
`[min_exponent, max_exponent, count]` list for the log-spaced grid. -/
structure Parameters where
  range_flux : List ℝ
  range_etot : List ℝ
  range_fnu : List ℝ

/-- A `jang.stats.PosteriorVariable` as constructed in `jang/limits.py`:
name, two-element range, step count, log-spacing flag. -/
structure PosteriorVariable where
  name : String
  v_range : List ℝ
  nsteps : ℝ
  log_scale : Bool

/-- The `variables` list built by `get_limit_flux`:
`[PosteriorVariable("flux", parameters.range_flux[0:2], parameters.range_flux[2], log=True)]`. -/
def get_limit_flux_variables (parameters : Parameters) : List PosteriorVariable :=
  [⟨"flux", parameters.range_flux.take 2, parameters.range_flux.getD 2 0, true⟩]

/-- The `variables` list built by `get_limit_flux_with_othervars`:
`[PosteriorVariable("flux", parameters.range_fnu[0:2], parameters.range_fnu[2], log=True)] + other_variables`. -/
def get_limit_flux_with_othervars_variables (parameters : Parameters)
    (other_variables : List PosteriorVariable) : List PosteriorVariable :=
  ⟨"flux", parameters.range_fnu.take 2, parameters.range_fnu.getD 2 0, true⟩ ::
    other_variables

/-- Pointwise prior weight, following the spec's description of the prior
evaluator: `1` for `flat`, the Poisson-Jeffreys expression for `jeffrey`,
`1/√v` for `invsqrt`. Used to compare the aggregated posterior against the
spec's formula. -/
def prior_weight_spec (bkg conv : List ℝ) (prior_type : String) (v : ℝ) : ℝ :=
  if prior_type = "flat" then 1
  else if prior_type = "jeffrey" then jeffrey_point bkg conv v
  else 1 / Real.sqrt v

/-- `exp` turns the absorbing addition of log-likelihood values into
multiplication, with `exp (-inf) = 0` absorbing for the product. -/
theorem expOpt_oadd (a b : Option ℝ) : expOpt (oadd a b) = expOpt a * expOpt b := by
  cases a <;> cases b <;> simp [oadd, expOpt, Real.exp_add]

/-- Exponentiating the accumulated log-likelihood of a list of samples gives
the product of the per-sample linear-scale likelihoods. -/
theorem expOpt_foldl_oadd (l : List (ℕ × ℝ × ℝ)) (v : ℝ) : ∀ a : Option ℝ,
    expOpt (l.foldl (fun acc s => oadd acc (logpoisson_one_sample s.1 s.2.1 s.2.2 v)) a) =
      expOpt a * (l.map (fun s => expOpt (logpoisson_one_sample s.1 s.2.1 s.2.2 v))).prod := by
  induction l with
  | nil => intro a; simp
  | cons s t ih =>
    intro a
    rw [List.foldl_cons, ih, expOpt_oadd, List.map_cons, List.prod_cons]
    ring

/-- C1: the one-sample Poisson log-likelihood is
`-(conv*v + nbackground) + nobserved * ln(conv*v + nbackground) - ln(nobserved!)`
where the expected count `conv*v + nbackground` is positive, and negative
infinity (modelled as `none`, likelihood 0) where it is not. -/
theorem logpoisson_one_sample_spec (n : ℕ) (b c v : ℝ) :
    logpoisson_one_sample n b c v =
      if 0 < c * v + b then
        some (-(c * v + b) + n * Real.log (c * v + b) - Real.log (Nat.factorial n))
      else none := by
  simp only [logpoisson_one_sample, gammaln, Real.Gamma_nat_eq_factorial]

/-- C5: at trial value 0 and with positive background `b`, the one-sample
Poisson likelihood reduces to the closed-form Poisson probability
`b^n * exp(-b) / n!`, for any conversion factor. -/
theorem poisson_at_trial_zero (n : ℕ) (b c : ℝ) (hb : 0 < b) :
    expOpt (logpoisson_one_sample n b c 0) = b ^ n * Real.exp (-b) / (Nat.factorial n) := by
  have hfact : (0 : ℝ) < (Nat.factorial n : ℝ) := by exact_mod_cast Nat.factorial_pos n
  simp only [logpoisson_one_sample, mul_zero, zero_add, if_pos hb, expOpt, gammaln,
    Real.Gamma_nat_eq_factorial]
  rw [Real.exp_sub, Real.exp_add, Real.exp_nat_mul, Real.exp_log hb, Real.exp_log hfact]
  ring

/-- C5 witness: one observed event on background 1 at trial value 0. -/
theorem poisson_at_trial_zero_witness :
    (0 : ℝ) < 1 ∧ expOpt (logpoisson_one_sample 1 1 0 0) =
      (1 : ℝ) ^ 1 * Real.exp (-1) / (Nat.factorial 1) :=
  ⟨by norm_num, poisson_at_trial_zero 1 1 0 (by norm_num)⟩

/-- C4: the multi-sample Poisson likelihood (sum of per-sample
log-likelihoods, exponentiated once) equals, at every grid point, the
product across samples of the per-sample linear-scale likelihoods. -/
theorem poisson_several_samples_prod (nobs : List ℕ) (nbkg conv var : List ℝ) :
    poisson_several_samples nobs nbkg conv var =
      var.map (fun v =>
        ((nobs.zip (nbkg.zip conv)).map
          (fun s => expOpt (logpoisson_one_sample s.1 s.2.1 s.2.2 v))).prod) := by
  simp only [poisson_several_samples, logpoisson_several_point]
  congr 1
  funext v
  rw [expOpt_foldl_oadd]
  simp [expOpt]

/-- C10: with zero samples the multi-sample Poisson likelihood is the empty
product, i.e. the constant 1 at every grid point. -/
theorem poisson_several_samples_no_samples (var : List ℝ) :
    poisson_several_samples [] [] [] var = var.map (fun _ => 1) := by
  simp [poisson_several_samples, logpoisson_several_point, expOpt]

/-- Summing a function mapped over `List.range n` is the `Finset.range` sum. -/
theorem sum_map_range (n : ℕ) (f : ℕ → ℝ) :
    ((List.range n).map f).sum = ∑ i in Finset.range n, f i := by
  induction n with
  | zero => simp
  | succ m ih =>
    rw [List.range_succ, List.map_append, List.sum_append, Finset.sum_range_succ, ih]
    simp

/-- C3: the Jeffreys prior is the pointwise square root of the sum, over the
samples with positive conversion factor, of `conv[i]^2/(conv[i]*v + bkg[i])`
(samples with non-positive conversion contributing 0); with one sample of
conversion factor 0 it vanishes on the whole grid. -/
theorem jeffrey_poisson_spec :
    (∀ var bkg conv : List ℝ,
      jeffrey_poisson var bkg conv = var.map (fun v =>
        Real.sqrt (∑ i in Finset.range bkg.length,
          if 0 < conv.getD i 0 then
            conv.getD i 0 ^ 2 / (conv.getD i 0 * v + bkg.getD i 0)
          else 0))) ∧
    (∀ (var : List ℝ) (b : ℝ), jeffrey_poisson var [b] [0] = var.map (fun _ => 0)) := by
  constructor
  · intro var bkg conv
    have hpt : ∀ v : ℝ, jeffrey_point bkg conv v =
        Real.sqrt (∑ i in Finset.range bkg.length,
          if 0 < conv.getD i 0 then
            conv.getD i 0 ^ 2 / (conv.getD i 0 * v + bkg.getD i 0)
          else 0) := by
      intro v
      simp only [jeffrey_point]
      rw [sum_map_range]
    exact List.map_congr_left (fun v _ => hpt v)
  · intro var b
    have hpt : ∀ v : ℝ, jeffrey_point [b] [0] v = 0 := by
      intro v
      simp [jeffrey_point, List.range_succ]
    exact List.map_congr_left (fun v _ => hpt v)

/-- C6: for each of the three recognized prior names, `signal_parameter`
succeeds and returns a non-negative weighting array of the same length as
the grid, whatever the backgrounds and conversion factors. -/
theorem signal_parameter_nonneg (var bkg conv : List ℝ) (pt : String)
    (h : pt = "flat" ∨ pt = "jeffrey" ∨ pt = "invsqrt") :
    ∃ w, signal_parameter var bkg conv pt = .ok w ∧
      w.length = var.length ∧ ∀ x ∈ w, 0 ≤ x := by
  rcases h with h | h | h <;> subst h
  · refine ⟨flat var, by simp [signal_parameter], by simp [flat], ?_⟩
    intro x hx
    simp only [flat, List.mem_map] at hx
    obtain ⟨v, -, hv⟩ := hx
    simp [← hv]
  · refine ⟨jeffrey_poisson var bkg conv, by simp [signal_parameter], by simp [jeffrey_poisson], ?_⟩
    intro x hx
    simp only [jeffrey_poisson, List.mem_map] at hx
    obtain ⟨v, -, hv⟩ := hx
    rw [← hv]
    exact Real.sqrt_nonneg _
  · refine ⟨invsqrt var, by simp [signal_parameter], by simp [invsqrt], ?_⟩
    intro x hx
    simp only [invsqrt, List.mem_map] at hx
    obtain ⟨v, -, hv⟩ := hx
    rw [← hv]
    exact div_nonneg zero_le_one (Real.sqrt_nonneg v)

/-- C6 witness: concrete instance with the `jeffrey` prior and a sample
whose conversion factor is negative. -/
theorem signal_parameter_nonneg_witness :
    ∃ w, signal_parameter [1, 2] [1] [-1] "jeffrey" = .ok w ∧
      w.length = ([(1 : ℝ), 2]).length ∧ ∀ x ∈ w, 0 ≤ x :=
  signal_parameter_nonneg [1, 2] [1] [-1] "jeffrey" (Or.inr (Or.inl rfl))

/-- C7: `signal_parameter` dispatches `flat`, `jeffrey` and `invsqrt` to the
corresponding prior functions, and raises (returns the error branch) on any
other prior name, with no silent fallback. -/
theorem signal_parameter_dispatch (var bkg conv : List ℝ) (pt : String) :
    (pt ≠ "flat" → pt ≠ "jeffrey" → pt ≠ "invsqrt" →
      signal_parameter var bkg conv pt = .error ("Unknown prior type " ++ pt)) ∧
    signal_parameter var bkg conv "flat" = .ok (flat var) ∧
    signal_parameter var bkg conv "jeffrey" = .ok (jeffrey_poisson var bkg conv) ∧
    signal_parameter var bkg conv "invsqrt" = .ok (invsqrt var) := by
  refine ⟨fun h1 h2 h3 => ?_, ?_, ?_, ?_⟩
  · simp only [signal_parameter, if_neg h1, if_neg h2, if_neg h3]
  · simp [signal_parameter]
  · simp [signal_parameter]
  · simp [signal_parameter]

/-- C7 witness: an unrecognized prior name produces the raised error. -/
theorem signal_parameter_dispatch_witness :
    signal_parameter [1] [1] [1] "gauss" = .error ("Unknown prior type " ++ "gauss") :=
  (signal_parameter_dispatch [1] [1] [1] "gauss").1 (by decide) (by decide) (by decide)

/-- C8: a sample with no event list falls back to the pure Poisson
log-likelihood, for every source direction, grid point and optional
temporal variables. -/
theorem logpointsource_one_sample_fallback (sample : Sample) (nobs : ℕ)
    (nbkg conv ra dec v : ℝ) (ov : Option (ℝ × ℝ)) (h : sample.events = none) :
    logpointsource_one_sample sample nobs nbkg conv ra dec v ov =
      logpoisson_one_sample nobs nbkg conv v := by
  simp only [logpointsource_one_sample, h]

/-- C8 witness: concrete sample without events. -/
theorem logpointsource_one_sample_fallback_witness :
    logpointsource_one_sample ⟨none, ⟨none, none, none, none, none, none⟩⟩ 2 1 3 0 0 5 none =
      logpoisson_one_sample 2 1 3 5 :=
  logpointsource_one_sample_fallback ⟨none, ⟨none, none, none, none, none, none⟩⟩ 2 1 3 0 0 5
    none rfl

/-- Zipping two maps over the same grid is the map of the pointwise
combination: numpy elementwise arithmetic on same-shaped arrays. -/
theorem zipWith_map_same (op : ℝ → ℝ → ℝ) (f g : ℝ → ℝ) (l : List ℝ) :
    List.zipWith op (l.map f) (l.map g) = l.map (fun v => op (f v) (g v)) := by
  induction l with
  | nil => rfl
  | cons a t ih => simp [ih]

/-- `np.zeros_like(x_arr)` as a map over the grid. -/
theorem replicate_zero_eq_map (l : List ℝ) :
    List.replicate l.length (0 : ℝ) = l.map (fun _ => 0) := by
  induction l with
  | nil => rfl
  | cons a t ih => simp only [List.length_cons, List.replicate_succ, List.map_cons, ih]

/-- Binding a successful `Except` computation applies the continuation. -/
theorem except_bind_ok {α β : Type} (a : α) (f : α → Except String β) :
    (Except.ok a >>= f) = f a := rfl

/-- `pure` of the `Except` monad is `Except.ok`. -/
theorem except_pure_eq {α : Type} (a : α) : (pure a : Except String α) = Except.ok a := rfl

/-- On the three recognized prior names, `signal_parameter` returns the
grid mapped through the pointwise prior weight. -/
theorem signal_parameter_eq_map (var bkg conv : List ℝ) (pt : String)
    (h : pt = "flat" ∨ pt = "jeffrey" ∨ pt = "invsqrt") :
    signal_parameter var bkg conv pt = .ok (var.map (prior_weight_spec bkg conv pt)) := by
  rcases h with h | h | h <;> subst h
  · have hw : ∀ v : ℝ, prior_weight_spec bkg conv "flat" v = 1 := fun v => by
      simp [prior_weight_spec]
    simp only [signal_parameter, if_pos rfl, flat]
    exact congrArg Except.ok (List.map_congr_left (fun v _ => (hw v).symm))
  · have hw : ∀ v : ℝ, prior_weight_spec bkg conv "jeffrey" v = jeffrey_point bkg conv v :=
      fun v => by simp [prior_weight_spec]
    simp only [signal_parameter, if_true, jeffrey_poisson]
    exact congrArg Except.ok (List.map_congr_left (fun v _ => (hw v).symm))
  · have hw : ∀ v : ℝ, prior_weight_spec bkg conv "invsqrt" v = 1 / Real.sqrt v := fun v => by
      simp [prior_weight_spec]
    simp only [signal_parameter, if_true, invsqrt]
    exact congrArg Except.ok (List.map_congr_left (fun v _ => (hw v).symm))

/-- The toy-aggregation fold of the posterior computations, run from any
grid-shaped accumulator, succeeds on a recognized prior name and adds to
the accumulator, at each grid point, the sum over toys of likelihood times
prior weight. -/
theorem posterior_foldlM_ok (toys : List ToyResult) (f : ToyResult → List ℝ)
    (x_arr : List ℝ) (pt : String)
    (h : pt = "flat" ∨ pt = "jeffrey" ∨ pt = "invsqrt") :
    ∀ F : ℝ → ℝ,
      (toys.foldlM
        (fun post_arr toy => do
          let conv := f toy
          let p ← signal_parameter x_arr toy.nbackground conv pt
          pure (listAdd post_arr
            (listMul (poisson_several_samples toy.nobserved toy.nbackground conv x_arr) p)))
        (x_arr.map F) : Except String (List ℝ)) =
      .ok (x_arr.map (fun v => F v +
        (toys.map (fun t =>
          expOpt (logpoisson_several_point t.nobserved t.nbackground (f t) v) *
            prior_weight_spec t.nbackground (f t) pt v)).sum)) := by
  induction toys with
  | nil =>
    intro F
    simp only [List.foldlM_nil, List.map_nil, List.sum_nil, add_zero]
    rfl
  | cons t ts ih =>
    intro F
    have hsp := signal_parameter_eq_map x_arr t.nbackground (f t) pt h
    have hstep :
        listAdd (x_arr.map F)
          (listMul (poisson_several_samples t.nobserved t.nbackground (f t) x_arr)
            (x_arr.map (prior_weight_spec t.nbackground (f t) pt))) =
        x_arr.map (fun v => F v +
          expOpt (logpoisson_several_point t.nobserved t.nbackground (f t) v) *
            prior_weight_spec t.nbackground (f t) pt v) := by
      simp only [poisson_several_samples, listMul, listAdd, zipWith_map_same]
    simp only [List.foldlM_cons, hsp, except_bind_ok, except_pure_eq, hstep]
    refine (ih (fun v =>
      F v + expOpt (logpoisson_several_point t.nobserved t.nbackground (f t) v) *
        prior_weight_spec t.nbackground (f t) pt v)).trans ?_
    refine congrArg Except.ok (List.map_congr_left (fun v _ => ?_))
    rw [List.map_cons, List.sum_cons, add_assoc]

/-- C2: on a recognized prior name, each of the three posterior
computations returns, at every grid point, the unnormalized sum over the
toy ensemble of the multi-sample Poisson likelihood times the prior
weight, one equally-weighted term per toy. -/
theorem compute_posteriors_toy_sum (toys : List ToyResult) (f : ToyResult → List ℝ)
    (x_arr : List ℝ) (pt : String)
    (h : pt = "flat" ∨ pt = "jeffrey" ∨ pt = "invsqrt") :
    compute_flux_posterior toys f x_arr pt =
      .ok (x_arr.map (fun v =>
        (toys.map (fun t =>
          expOpt (logpoisson_several_point t.nobserved t.nbackground (f t) v) *
            prior_weight_spec t.nbackground (f t) pt v)).sum)) ∧
    compute_etot_posterior toys f x_arr pt =
      .ok (x_arr.map (fun v =>
        (toys.map (fun t =>
          expOpt (logpoisson_several_point t.nobserved t.nbackground (f t) v) *
            prior_weight_spec t.nbackground (f t) pt v)).sum)) ∧
    compute_fnu_posterior toys f x_arr pt =
      .ok (x_arr.map (fun v =>
        (toys.map (fun t =>
          expOpt (logpoisson_several_point t.nobserved t.nbackground (f t) v) *
            prior_weight_spec t.nbackground (f t) pt v)).sum)) := by
  have base : compute_flux_posterior toys f x_arr pt =
      .ok (x_arr.map (fun v =>
        (toys.map (fun t =>
          expOpt (logpoisson_several_point t.nobserved t.nbackground (f t) v) *
            prior_weight_spec t.nbackground (f t) pt v)).sum)) := by
    rw [compute_flux_posterior, replicate_zero_eq_map, posterior_foldlM_ok toys f x_arr pt h]
    refine congrArg Except.ok (List.map_congr_left (fun v _ => ?_))
    rw [zero_add]
  have hetot : compute_etot_posterior toys f x_arr pt = compute_flux_posterior toys f x_arr pt :=
    rfl
  have hfnu : compute_fnu_posterior toys f x_arr pt = compute_flux_posterior toys f x_arr pt :=
    rfl
  exact ⟨base, hetot.trans base, hfnu.trans base⟩

/-- C2 witness: one toy with one sample, single-point grid, flat prior. -/
theorem compute_posteriors_toy_sum_witness :
    compute_flux_posterior [⟨[1], [1]⟩] (fun _ => [1]) [1] "flat" =
      .ok (([(1 : ℝ)]).map (fun v =>
        (([(⟨[1], [1]⟩ : ToyResult)]).map (fun t =>
          expOpt (logpoisson_several_point t.nobserved t.nbackground ((fun _ => [1]) t) v) *
            prior_weight_spec t.nbackground ((fun _ => [1]) t) "flat" v)).sum)) ∧
    compute_etot_posterior [⟨[1], [1]⟩] (fun _ => [1]) [1] "flat" =
      .ok (([(1 : ℝ)]).map (fun v =>
        (([(⟨[1], [1]⟩ : ToyResult)]).map (fun t =>
          expOpt (logpoisson_several_point t.nobserved t.nbackground ((fun _ => [1]) t) v) *
            prior_weight_spec t.nbackground ((fun _ => [1]) t) "flat" v)).sum)) ∧
    compute_fnu_posterior [⟨[1], [1]⟩] (fun _ => [1]) [1] "flat" =
      .ok (([(1 : ℝ)]).map (fun v =>
        (([(⟨[1], [1]⟩ : ToyResult)]).map (fun t =>
          expOpt (logpoisson_several_point t.nobserved t.nbackground ((fun _ => [1]) t) v) *
            prior_weight_spec t.nbackground ((fun _ => [1]) t) "flat" v)).sum)) :=
  compute_posteriors_toy_sum [⟨[1], [1]⟩] (fun _ => [1]) [1] "flat" (Or.inl rfl)

/-- C9: in `get_limit_flux_with_othervars` the primary `"flux"` variable is
built from `parameters.range_fnu`, not from `parameters.range_flux` used by
`get_limit_flux`: with flux range `[-5, 5, 100]` and fnu range
`[-3, 3, 50]` the two functions build different `"flux"` grids. -/
theorem get_limit_flux_with_othervars_range_bug :
    (get_limit_flux_with_othervars_variables ⟨[-5, 5, 100], [-1, 1, 10], [-3, 3, 50]⟩ []).map
        PosteriorVariable.v_range = [[(-3 : ℝ), 3]] ∧
    (get_limit_flux_variables ⟨[-5, 5, 100], [-1, 1, 10], [-3, 3, 50]⟩).map
        PosteriorVariable.v_range = [[(-5 : ℝ), 5]] ∧
    ([[(-3 : ℝ), 3]] : List (List ℝ)) ≠ [[(-5 : ℝ), 5]] := by
  refine ⟨rfl, rfl, fun hcon => ?_⟩
  have h3 := congrArg (fun l : List (List ℝ) => (l.headD []).headD 0) hcon
  simp only [List.headD_cons] at h3
  norm_num at h3

end

end Jang
